import Mathlib

/-!
Verification of the OnTheUseOfAgenticCoding data pipeline.

Each section shallowly embeds one Python source file of the repository:
pandas data frames become lists of row structures, timestamps become
integers (seconds), API responses become inductive values, and the
scripts' loops become structurally recursive Lean functions.  Theorems at
the end of the file settle the specification claims against these
embeddings.
-/

/-! ### Model of src/APR/main8_get-require-revision-pr.py

A commit-detail table is a list of rows keyed by (owner, repo_name,
pull_number) with the per-commit Is_first_commit flag.  Only the columns
the revision classifier reads are modelled. -/

namespace Main8

/-- Key of a pull request: (owner, repo_name, pull_number). -/
abbrev PRKey := String × String × Nat

/-- One row of the commit-details table (one commit of one PR). -/
structure CommitRow where
  owner : String
  repoName : String
  pullNumber : Nat
  isFirstCommit : Bool
deriving DecidableEq

def keyOf (r : CommitRow) : PRKey := (r.owner, r.repoName, r.pullNumber)

/-- Set of the keys of all PRs present in the table
(df.set_index([...]).index, as a set; modelled as a deduplicated list). -/
def allPrKeys (df : List CommitRow) : List PRKey := (df.map keyOf).dedup

/-- Rows of the group for key k (the groupby group). -/
def rowsFor (df : List CommitRow) (k : PRKey) : List CommitRow :=
  df.filter (fun r => keyOf r == k)

/-- Condition 1 of the classifier: groupby(...)['Is_first_commit'].all(). -/
def cond1 (df : List CommitRow) (k : PRKey) : Bool :=
  (rowsFor df k).all (·.isFirstCommit)

/-- total_commits of pr_stats: count of rows in the group. -/
def totalCommits (df : List CommitRow) (k : PRKey) : Nat :=
  (rowsFor df k).length

/-- first_commit_count of pr_stats: sum of the boolean column, i.e. the
number of rows of the group with Is_first_commit = True. -/
def firstCommitCount (df : List CommitRow) (k : PRKey) : Nat :=
  ((rowsFor df k).filter (·.isFirstCommit)).length

/-- Condition 2 of the classifier:
first_commit_count == 0 and total_commits == 1. -/
def cond2 (df : List CommitRow) (k : PRKey) : Bool :=
  firstCommitCount df k == 0 && totalCommits df k == 1

/-- Keys classified as having NO revision:
no_revision_pr_keys_condition1 | no_revision_pr_keys_condition2. -/
def noRevisionKeys (df : List CommitRow) : List PRKey :=
  (allPrKeys df).filter (fun k => cond1 df k || cond2 df k)

/-- Keys classified as HAVING a revision:
all_pr_keys - all_no_revision_pr_keys (set difference). -/
def revisionKeys (df : List CommitRow) : List PRKey :=
  (allPrKeys df).filter (fun k => !(noRevisionKeys df).contains k)

/-- Claim-side reading of condition (a): every commit of the PR is flagged
Is_first_commit. -/
def AllCommitsFirst (df : List CommitRow) (k : PRKey) : Prop :=
  ∀ r ∈ df, keyOf r = k → r.isFirstCommit = true

/-- Claim-side reading of condition (b): no commit of the PR is flagged
Is_first_commit and the PR has exactly one commit. -/
def NoFirstAndSingle (df : List CommitRow) (k : PRKey) : Prop :=
  (∀ r ∈ df, keyOf r = k → r.isFirstCommit = false) ∧
    df.countP (fun r => keyOf r == k) = 1

theorem cond1_iff (df : List CommitRow) (k : PRKey) :
    cond1 df k = true ↔ AllCommitsFirst df k := by
  simp only [cond1, AllCommitsFirst, rowsFor, List.all_eq_true,
    List.mem_filter, Bool.and_eq_true, beq_iff_eq]
  constructor
  · intro h r hr hk
    exact h r ⟨hr, hk⟩
  · intro h r hr
    exact h r hr.1 hr.2

theorem cond2_iff (df : List CommitRow) (k : PRKey) :
    cond2 df k = true ↔ NoFirstAndSingle df k := by
  simp only [cond2, NoFirstAndSingle, Bool.and_eq_true, beq_iff_eq,
    firstCommitCount, totalCommits, rowsFor, List.length_eq_zero,
    List.filter_eq_nil_iff, List.mem_filter, List.countP_eq_length_filter]
  constructor
  · rintro ⟨h0, h1⟩
    refine ⟨fun r hr hk => ?_, h1⟩
    have := h0 r ⟨hr, by simp [hk]⟩
    simpa using this
  · rintro ⟨h0, h1⟩
    refine ⟨fun r hr => ?_, h1⟩
    have hk : keyOf r = k := by simpa using hr.2
    simp [h0 r hr.1 hk]

theorem noRevisionKeys_mem (df : List CommitRow) (k : PRKey) :
    k ∈ noRevisionKeys df ↔
      k ∈ allPrKeys df ∧ (AllCommitsFirst df k ∨ NoFirstAndSingle df k) := by
  simp [noRevisionKeys, List.mem_filter, cond1_iff, cond2_iff]

theorem revisionKeys_mem (df : List CommitRow) (k : PRKey) :
    k ∈ revisionKeys df ↔
      k ∈ allPrKeys df ∧ ¬(AllCommitsFirst df k ∨ NoFirstAndSingle df k) := by
  rw [revisionKeys, List.mem_filter]
  constructor
  · rintro ⟨hall, hbn⟩
    have hnot : k ∉ noRevisionKeys df := by
      intro hm
      have hct : (noRevisionKeys df).contains k = true := List.elem_iff.mpr hm
      rw [hct] at hbn
      exact absurd hbn (by decide)
    exact ⟨hall, fun hcond => hnot ((noRevisionKeys_mem df k).mpr ⟨hall, hcond⟩)⟩
  · rintro ⟨hall, hncond⟩
    have hnot : k ∉ noRevisionKeys df :=
      fun hm => hncond ((noRevisionKeys_mem df k).mp hm).2
    refine ⟨hall, ?_⟩
    cases hct : (noRevisionKeys df).contains k
    · simp
    · exact absurd (List.elem_iff.mp hct) hnot

end Main8

/-- C1: the revision classifier labels a PR NO-revision iff all of its
commits are flagged Is_first_commit, or none is and it has exactly one
commit; every other PR is labeled as having a revision, and the two output
key sets partition the input key set. -/
theorem C1_revision_classifier (df : List Main8.CommitRow) (k : Main8.PRKey) :
    (k ∈ Main8.noRevisionKeys df ↔
      k ∈ Main8.allPrKeys df ∧
        (Main8.AllCommitsFirst df k ∨ Main8.NoFirstAndSingle df k)) ∧
    (k ∈ Main8.revisionKeys df ↔
      k ∈ Main8.allPrKeys df ∧
        ¬(Main8.AllCommitsFirst df k ∨ Main8.NoFirstAndSingle df k)) ∧
    ¬(k ∈ Main8.noRevisionKeys df ∧ k ∈ Main8.revisionKeys df) ∧
    (k ∈ Main8.allPrKeys df ↔
      k ∈ Main8.noRevisionKeys df ∨ k ∈ Main8.revisionKeys df) := by
  refine ⟨Main8.noRevisionKeys_mem df k, Main8.revisionKeys_mem df k, ?_, ?_⟩
  · rintro ⟨h1, h2⟩
    exact (((Main8.revisionKeys_mem df k).mp h2).2)
      (((Main8.noRevisionKeys_mem df k).mp h1).2)
  · constructor
    · intro hall
      by_cases hc : Main8.AllCommitsFirst df k ∨ Main8.NoFirstAndSingle df k
      · exact Or.inl ((Main8.noRevisionKeys_mem df k).mpr ⟨hall, hc⟩)
      · exact Or.inr ((Main8.revisionKeys_mem df k).mpr ⟨hall, hc⟩)
    · rintro (h | h)
      · exact ((Main8.noRevisionKeys_mem df k).mp h).1
      · exact ((Main8.revisionKeys_mem df k).mp h).1

/-! ### Model of src/APR/module/make_first_commit.py -/

namespace MakeFirstCommit

/-- One input row: the two date columns after pd.to_datetime with
errors coerced, so an unparseable date is none (NaT).  Timestamps are
modelled as integer seconds. -/
structure DateRow where
  commitDate : Option Int
  prCreatedDate : Option Int
deriving DecidableEq

/-- One output row: the input row plus the Is_first_commit flag. -/
structure FlaggedRow where
  row : DateRow
  isFirstCommit : Bool
deriving DecidableEq

/-- Comparison df['commit_date'] < df['pr_created_date'] on a row whose
dates are both present. -/
def strictlyEarlier (r : DateRow) : Bool :=
  match r.commitDate, r.prCreatedDate with
  | some cd, some pc => cd < pc
  | _, _ => false

/-- mark_earliest_commit: drop rows with NaT dates, initialize
Is_first_commit to False, then set it to True where
commit_date < pr_created_date. -/
def markEarliestCommit (df : List DateRow) : List FlaggedRow :=
  let kept := df.filter (fun r => r.commitDate.isSome && r.prCreatedDate.isSome)
  let initialized := kept.map (fun r => { row := r, isFirstCommit := false })
  initialized.map (fun fr =>
    if strictlyEarlier fr.row then { fr with isFirstCommit := true } else fr)

end MakeFirstCommit

/-- C9: for every row with valid dates, the Is_first_commit flag is true
iff the commit timestamp is strictly earlier than the PR creation
timestamp; a commit at or after the creation time is flagged false. -/
theorem C9_first_commit_flag (df : List MakeFirstCommit.DateRow)
    (fr : MakeFirstCommit.FlaggedRow)
    (hfr : fr ∈ MakeFirstCommit.markEarliestCommit df)
    (cd pc : Int) (hcd : fr.row.commitDate = some cd)
    (hpc : fr.row.prCreatedDate = some pc) :
    (fr.isFirstCommit = true ↔ cd < pc) ∧ (pc ≤ cd → fr.isFirstCommit = false) := by
  simp only [MakeFirstCommit.markEarliestCommit, List.mem_map,
    List.mem_filter] at hfr
  obtain ⟨fr0, ⟨r, hr, rfl⟩, hfr0⟩ := hfr
  have hrow : fr.row = r := by
    rw [← hfr0]
    by_cases h : MakeFirstCommit.strictlyEarlier r <;> simp [h]
  have hflag : fr.isFirstCommit = MakeFirstCommit.strictlyEarlier r := by
    rw [← hfr0]
    by_cases h : MakeFirstCommit.strictlyEarlier r <;> simp [h]
  rw [hrow] at hcd hpc
  have hse : MakeFirstCommit.strictlyEarlier r = decide (cd < pc) := by
    simp [MakeFirstCommit.strictlyEarlier, hcd, hpc]
  constructor
  · rw [hflag, hse]
    simp
  · intro hle
    rw [hflag, hse]
    simpa [decide_eq_false_iff_not] using not_lt.mpr hle

/-- Closed witness for C9 at a concrete table: a commit one second before
PR creation is flagged true, and one at the creation instant is flagged
false. -/
theorem C9_first_commit_flag_witness :
    ∃ fr ∈ MakeFirstCommit.markEarliestCommit
        [⟨some 5, some 6⟩, ⟨some 6, some 6⟩, ⟨none, some 6⟩],
      fr.row.commitDate = some 5 ∧ fr.isFirstCommit = true := by
  refine ⟨⟨⟨some 5, some 6⟩, true⟩, by decide, by decide, ?_⟩
  have h := C9_first_commit_flag
    [⟨some 5, some 6⟩, ⟨some 6, some 6⟩, ⟨none, some 6⟩]
    ⟨⟨some 5, some 6⟩, true⟩ (by decide) 5 6 rfl rfl
  exact h.1.mpr (by decide)

/-! ### Model of src/APR/module/add-push-date.py

The function _calculate_inferred_push_dates walks the date-sorted commit
list, grouping consecutive commits of the same committer email whose
committer dates are less than 300 seconds apart, then maps every commit
sha of a group to the committer date of the group's last member.  A raw
API commit is modelled with its three fields of interest, each optional
since the code defends against missing keys; dates are integer seconds. -/

namespace AddPushDate

structure RawCommit where
  sha : Option String
  email : Option String
  date : Option Int
deriving DecidableEq

/-- Check that the commit has the committer email and date keys
(the code skips commits where either is missing). -/
def hasMeta (c : RawCommit) : Bool := c.email.isSome && c.date.isSome

/-- Grouping test against the current group's last commit: same committer
email and absolute date gap under 300 seconds. -/
def sameGroup (lastc c : RawCommit) : Bool :=
  c.email == lastc.email && decide ((c.date.getD 0 - lastc.date.getD 0).natAbs < 300)

/-- Walk of the remaining commits with a nonempty current group, kept in
reverse order with its last member lastc on top. -/
def groupGo (lastc : RawCommit) (restRev : List RawCommit) :
    List RawCommit → List (List RawCommit)
  | [] => [(lastc :: restRev).reverse]
  | c :: cs =>
    if hasMeta c then
      if sameGroup lastc c then groupGo c (lastc :: restRev) cs
      else (lastc :: restRev).reverse :: groupGo c [] cs
    else groupGo lastc restRev cs

/-- Grouping pass of _calculate_inferred_push_dates over the (already
sorted) commit list. -/
def groupCommits : List RawCommit → List (List RawCommit)
  | [] => []
  | c :: cs => if hasMeta c then groupGo c [] cs else groupCommits cs

/-- Committer date of a group's last member (push_date_for_group). -/
def lastDate (g : List RawCommit) : Int :=
  (g.getLast?.map (fun c => c.date.getD 0)).getD 0

/-- Python dict assignment sha_to_push_date_map[sha] = date, modelled as
an append whose later entries win on lookup. -/
def insertSha (m : List (String × Int)) (s : String) (pd : Int) :
    List (String × Int) := m ++ [(s, pd)]

/-- Python dict lookup: the latest binding of the key wins. -/
def dictLookup (m : List (String × Int)) (s : String) : Option Int :=
  m.reverse.lookup s

/-- Second pass of _calculate_inferred_push_dates: map each sha of each
group to the group's push date. -/
def pushDateMap (groups : List (List RawCommit)) : List (String × Int) :=
  groups.foldl (fun m g =>
    g.foldl (fun m' c =>
      match c.sha with
      | some s => insertSha m' s (lastDate g)
      | none => m') m) []

theorem flatten_groupGo (cs : List RawCommit) :
    ∀ lastc restRev, (groupGo lastc restRev cs).flatten =
      (lastc :: restRev).reverse ++ cs.filter hasMeta := by
  induction cs with
  | nil => intro lastc restRev; simp [groupGo]
  | cons c cs ih =>
    intro lastc restRev
    by_cases hm : hasMeta c
    · by_cases hs : sameGroup lastc c
      · simp [groupGo, hm, hs, ih, List.filter_cons]
      · simp [groupGo, hm, hs, ih, List.filter_cons]
    · simp [groupGo, hm, ih, List.filter_cons]

theorem flatten_groupCommits (cs : List RawCommit) :
    (groupCommits cs).flatten = cs.filter hasMeta := by
  induction cs with
  | nil => simp [groupCommits]
  | cons c cs ih =>
    by_cases hm : hasMeta c
    · simp [groupCommits, hm, flatten_groupGo, List.filter_cons]
    · simp [groupCommits, hm, ih, List.filter_cons]

theorem groupGo_groups (cs : List RawCommit) :
    ∀ lastc restRev,
      List.Chain' (fun a b => sameGroup a b = true) ((lastc :: restRev).reverse) →
      ∀ g ∈ groupGo lastc restRev cs,
        g ≠ [] ∧ List.Chain' (fun a b => sameGroup a b = true) g := by
  induction cs with
  | nil =>
    intro lastc restRev hcur g hg
    simp only [groupGo, List.mem_singleton] at hg
    subst hg
    exact ⟨by simp, hcur⟩
  | cons c cs ih =>
    intro lastc restRev hcur g hg
    by_cases hm : hasMeta c
    · by_cases hs : sameGroup lastc c
      · simp only [groupGo, if_pos hm, if_pos hs] at hg
        refine ih c (lastc :: restRev) ?_ g hg
        rw [List.reverse_cons]
        refine List.Chain'.append hcur (List.chain'_singleton c) ?_
        intro x hx y hy
        have hx' : lastc = x := by
          rw [List.getLast?_reverse] at hx
          simpa using hx
        have hy' : c = y := by simpa using hy
        subst hx'
        subst hy'
        exact hs
      · simp only [groupGo, if_pos hm, if_neg hs, List.mem_cons] at hg
        rcases hg with rfl | hg
        · exact ⟨by simp, hcur⟩
        · exact ih c [] (by simp) g hg
    · simp only [groupGo, if_neg hm] at hg
      exact ih lastc restRev hcur g hg

theorem groupGo_head (cs : List RawCommit) :
    ∀ lastc restRev, ∃ g t, groupGo lastc restRev cs = g :: t ∧
      g.head? = (lastc :: restRev).getLast? := by
  induction cs with
  | nil =>
    intro lastc restRev
    exact ⟨_, _, rfl, List.head?_reverse _⟩
  | cons c cs ih =>
    intro lastc restRev
    by_cases hm : hasMeta c
    · by_cases hs : sameGroup lastc c
      · obtain ⟨g, t, heq, hh⟩ := ih c (lastc :: restRev)
        refine ⟨g, t, by simp [groupGo, hm, hs, heq], ?_⟩
        rw [hh]
        exact List.getLast?_cons_cons
      · refine ⟨(lastc :: restRev).reverse, groupGo c [] cs, ?_, List.head?_reverse _⟩
        simp [groupGo, hm, hs]
    · obtain ⟨g, t, heq, hh⟩ := ih lastc restRev
      exact ⟨g, t, by simp [groupGo, hm, heq], hh⟩

/-- Boundary relation between consecutive emitted groups: the first commit
of the later group did not merge into the earlier group. -/
def BoundaryB (g g' : List RawCommit) : Prop :=
  ∀ a b, g.getLast? = some a → g'.head? = some b → sameGroup a b = false

theorem groupGo_boundary (cs : List RawCommit) :
    ∀ lastc restRev, List.Chain' BoundaryB (groupGo lastc restRev cs) := by
  induction cs with
  | nil =>
    intro lastc restRev
    simp only [groupGo]
    exact List.chain'_singleton _
  | cons c cs ih =>
    intro lastc restRev
    by_cases hm : hasMeta c
    · by_cases hs : sameGroup lastc c
      · simpa only [groupGo, if_pos hm, if_pos hs] using ih c (lastc :: restRev)
      · simp only [groupGo, if_pos hm, if_neg hs]
        obtain ⟨g, t, heq, hh⟩ := groupGo_head cs c []
        rw [heq]
        refine List.chain'_cons'.mpr ⟨?_, by rw [← heq]; exact ih c []⟩
        intro b hb
        have hb' : g = b := by simpa using hb
        subst hb'
        intro x y hx hy
        have hx' : lastc = x := by
          rw [List.getLast?_reverse] at hx
          simpa using hx
        have hy' : c = y := by
          rw [hh] at hy
          simpa using hy
        subst hx'
        subst hy'
        simpa using hs
    · simpa only [groupGo, if_neg hm] using ih lastc restRev

theorem groupCommits_groups (cs : List RawCommit) :
    ∀ g ∈ groupCommits cs,
      g ≠ [] ∧ List.Chain' (fun a b => sameGroup a b = true) g := by
  induction cs with
  | nil => intro g hg; simp [groupCommits] at hg
  | cons c cs ih =>
    intro g hg
    by_cases hm : hasMeta c
    · simp only [groupCommits, if_pos hm] at hg
      exact groupGo_groups cs c [] (by simp) g hg
    · simp only [groupCommits, if_neg hm] at hg
      exact ih g hg

theorem groupCommits_boundary (cs : List RawCommit) :
    List.Chain' BoundaryB (groupCommits cs) := by
  induction cs with
  | nil => simp [groupCommits]
  | cons c cs ih =>
    by_cases hm : hasMeta c
    · simpa only [groupCommits, if_pos hm] using groupGo_boundary cs c []
    · simpa only [groupCommits, if_neg hm] using ih

theorem sameGroup_iff (a b : RawCommit) :
    sameGroup a b = true ↔
      (b.email = a.email ∧ (b.date.getD 0 - a.date.getD 0).natAbs < 300) := by
  simp [sameGroup]

/-- Entries contributed to the sha map by one group. -/
def groupEntries (g : List RawCommit) : List (String × Int) :=
  g.filterMap (fun c => c.sha.map (fun s => (s, lastDate g)))

theorem foldl_insert_group (g : List RawCommit) (d : Int) :
    ∀ m, g.foldl (fun m' c =>
        match c.sha with
        | some s => insertSha m' s d
        | none => m') m
      = m ++ g.filterMap (fun c => c.sha.map (fun s => (s, d))) := by
  induction g with
  | nil => intro m; simp
  | cons c g ih =>
    intro m
    cases hc : c.sha with
    | none =>
      simp only [List.foldl_cons, List.filterMap_cons, hc]
      exact ih m
    | some s =>
      simp only [List.foldl_cons, List.filterMap_cons, hc, Option.map_some']
      rw [ih, insertSha, List.append_assoc, List.singleton_append]

theorem pushDateMap_eq (groups : List (List RawCommit)) :
    pushDateMap groups = (groups.map groupEntries).flatten := by
  suffices h : ∀ m, groups.foldl (fun m g =>
      g.foldl (fun m' c =>
        match c.sha with
        | some s => insertSha m' s (lastDate g)
        | none => m') m) m = m ++ (groups.map groupEntries).flatten
    by simpa using h []
  induction groups with
  | nil => intro m; simp
  | cons g gs ih =>
    intro m
    simp only [List.foldl_cons, List.map_cons, List.flatten_cons]
    rw [foldl_insert_group, ih, List.append_assoc]
    rfl

theorem filterMap_sha_keys (g : List RawCommit) (d : Int) :
    (g.filterMap (fun c => c.sha.map (fun s => (s, d)))).map Prod.fst
      = g.filterMap (fun c => c.sha) := by
  induction g with
  | nil => simp
  | cons c t ih =>
    cases hc : c.sha <;> simp [List.filterMap_cons, hc, ih]

theorem groupEntries_keys (g : List RawCommit) :
    (groupEntries g).map Prod.fst = g.filterMap (fun c => c.sha) :=
  filterMap_sha_keys g (lastDate g)

theorem lookup_of_mem_nodup :
    ∀ (m : List (String × Int)) (s : String) (v : Int),
      (s, v) ∈ m → (m.map Prod.fst).Nodup → m.lookup s = some v := by
  intro m
  induction m with
  | nil => intro s v hm; cases hm
  | cons p t ih =>
    intro s v hm hnd
    obtain ⟨k, w⟩ := p
    rcases List.mem_cons.mp hm with heq | hmt
    · injection heq with h1 h2
      subst h1
      subst h2
      simp [List.lookup]
    · have hk : k ∉ t.map Prod.fst := (List.nodup_cons.mp (by simpa using hnd)).1
      have hne : s ≠ k := by
        rintro rfl
        exact hk (List.mem_map.mpr ⟨(s, v), hmt, rfl⟩)
      have : (s == k) = false := beq_eq_false_iff_ne.mpr hne
      simp only [List.lookup, this]
      exact ih s v hmt (List.nodup_cons.mp (by simpa using hnd)).2

theorem dictLookup_of_mem_nodup {m : List (String × Int)} {s : String} {v : Int}
    (hm : (s, v) ∈ m) (hnd : (m.map Prod.fst).Nodup) : dictLookup m s = some v := by
  unfold dictLookup
  refine lookup_of_mem_nodup m.reverse s v (List.mem_reverse.mpr hm) ?_
  rw [List.map_reverse]
  exact List.nodup_reverse.mpr hnd

/-- Example commit: sha s1, email a, date 0. -/
def cA : RawCommit := ⟨some "s1", some "a", some 0⟩

/-- Example commit: sha s2, email a, date 100. -/
def cB : RawCommit := ⟨some "s2", some "a", some 100⟩

/-- Example commit: sha s3, email a, date 300. -/
def cC : RawCommit := ⟨some "s3", some "a", some 300⟩

/-- Example commit with committer email and date but no sha key. -/
def cNoSha : RawCommit := ⟨none, some "a", some 0⟩

end AddPushDate

/-- C2 (amended): in the commit grouping heuristic, every output group is
nonempty, consists of commits with committer email and date, and each
member has the same committer email as its immediate predecessor with a
date gap strictly under 300 seconds; and a new group starts exactly when
the email differs from the previous commit's or the gap is at least 300
seconds (the code uses a strict < 300 test, so a gap of exactly 300
seconds already starts a new group). -/
theorem C2_commit_grouping (cs : List AddPushDate.RawCommit) :
    (∀ g ∈ AddPushDate.groupCommits cs,
      g ≠ [] ∧ (∀ c ∈ g, AddPushDate.hasMeta c = true) ∧
      List.Chain' (fun a b => b.email = a.email ∧
        (b.date.getD 0 - a.date.getD 0).natAbs < 300) g) ∧
    List.Chain' (fun g g' => ∀ a b, g.getLast? = some a → g'.head? = some b →
      (b.email ≠ a.email ∨ 300 ≤ (b.date.getD 0 - a.date.getD 0).natAbs))
      (AddPushDate.groupCommits cs) := by
  constructor
  · intro g hg
    obtain ⟨hne, hch⟩ := AddPushDate.groupCommits_groups cs g hg
    refine ⟨hne, ?_, hch.imp (fun a b hab => (AddPushDate.sameGroup_iff a b).mp hab)⟩
    intro c hc
    have hcf : c ∈ cs.filter AddPushDate.hasMeta := by
      rw [← AddPushDate.flatten_groupCommits]
      exact List.mem_flatten.mpr ⟨g, hg, hc⟩
    exact (List.mem_filter.mp hcf).2
  · refine (AddPushDate.groupCommits_boundary cs).imp ?_
    intro g g' hb a b ha hbd
    have hf := hb a b ha hbd
    have hnot : ¬(b.email = a.email ∧
        (b.date.getD 0 - a.date.getD 0).natAbs < 300) := by
      rw [← AddPushDate.sameGroup_iff]
      simp [hf]
    by_cases he : b.email = a.email
    · right
      by_contra hlt
      push_neg at hlt
      exact hnot ⟨he, hlt⟩
    · exact Or.inl he

/-- Closed witness for C2 at a concrete commit list: two commits of the
same email 100 seconds apart form one nonempty group satisfying the
adjacency property. -/
theorem C2_commit_grouping_witness :
    ∃ g ∈ AddPushDate.groupCommits [AddPushDate.cA, AddPushDate.cB],
      g ≠ [] ∧ (∀ c ∈ g, AddPushDate.hasMeta c = true) ∧
      List.Chain' (fun a b => b.email = a.email ∧
        (b.date.getD 0 - a.date.getD 0).natAbs < 300) g :=
  ⟨[AddPushDate.cA, AddPushDate.cB], by decide,
    (C2_commit_grouping [AddPushDate.cA, AddPushDate.cB]).1
      [AddPushDate.cA, AddPushDate.cB] (by decide)⟩

/-- Counterexample to C2 as stated: two commits with the same committer
email exactly 300 seconds apart.  The gap does not exceed 300 seconds, so
under the claim no new group would start, yet the code splits them into
two groups, because its test is a strict < 300.  Hence the claimed
boundary property (new group only when the email differs or the gap
strictly exceeds 300) fails on the code's output. -/
theorem C2_commit_grouping_counterexample :
    AddPushDate.groupCommits [AddPushDate.cA, AddPushDate.cC]
      = [[AddPushDate.cA], [AddPushDate.cC]] ∧
    ¬ List.Chain' (fun g g' => ∀ a b, g.getLast? = some a → g'.head? = some b →
        (b.email ≠ a.email ∨ 300 < (b.date.getD 0 - a.date.getD 0).natAbs))
      (AddPushDate.groupCommits [AddPushDate.cA, AddPushDate.cC]) := by
  refine ⟨by decide, ?_⟩
  intro h
  rw [(by decide : AddPushDate.groupCommits [AddPushDate.cA, AddPushDate.cC]
    = [[AddPushDate.cA], [AddPushDate.cC]])] at h
  have hrel := (List.chain'_cons'.mp h).1 [AddPushDate.cC] rfl
  have hab := hrel AddPushDate.cA AddPushDate.cC rfl rfl
  rcases hab with he | hgap
  · exact he rfl
  · exact absurd hgap (by decide)

/-- C3 (amended): the groups produced by the heuristic concatenate, in
order, to exactly the commits of the input that carry committer email and
date; and, the shas being pairwise distinct, every commit of every group
that carries a sha is mapped, under that sha, to the committer date of
its group's last member - also on mixed inputs where other grouped
commits carry no sha. -/
theorem C3_grouping_partition (cs : List AddPushDate.RawCommit)
    (hnd : ((cs.filter AddPushDate.hasMeta).filterMap (fun c => c.sha)).Nodup) :
    (AddPushDate.groupCommits cs).flatten = cs.filter AddPushDate.hasMeta ∧
    ∀ g ∈ AddPushDate.groupCommits cs, ∀ c ∈ g, ∀ s, c.sha = some s →
      AddPushDate.dictLookup
          (AddPushDate.pushDateMap (AddPushDate.groupCommits cs)) s
        = some (AddPushDate.lastDate g) := by
  refine ⟨AddPushDate.flatten_groupCommits cs, ?_⟩
  intro g hg c hc s hs
  have hmem : (s, AddPushDate.lastDate g)
      ∈ AddPushDate.pushDateMap (AddPushDate.groupCommits cs) := by
    rw [AddPushDate.pushDateMap_eq]
    refine List.mem_flatten.mpr ⟨AddPushDate.groupEntries g,
      List.mem_map_of_mem _ hg, ?_⟩
    exact List.mem_filterMap.mpr ⟨c, hc, by simp [hs]⟩
  have hkeys : ((AddPushDate.pushDateMap
      (AddPushDate.groupCommits cs)).map Prod.fst).Nodup := by
    rw [AddPushDate.pushDateMap_eq]
    have h1 : ((AddPushDate.groupCommits cs).map
          AddPushDate.groupEntries).flatten.map Prod.fst
        = ((AddPushDate.groupCommits cs).flatten).filterMap (fun c => c.sha) := by
      rw [List.map_flatten, List.filterMap_flatten, List.map_map]
      congr 1
      exact List.map_congr_left (fun g _ => AddPushDate.groupEntries_keys g)
    rw [h1, AddPushDate.flatten_groupCommits]
    exact hnd
  exact AddPushDate.dictLookup_of_mem_nodup hmem hkeys

/-- Closed witness for C3 at a concrete mixed commit list: a sha-carrying
commit grouped together with a commit that has no sha is still assigned,
under its sha, the committer date of the group's last member. -/
theorem C3_grouping_partition_witness :
    AddPushDate.dictLookup
        (AddPushDate.pushDateMap
          (AddPushDate.groupCommits [AddPushDate.cA, AddPushDate.cNoSha])) "s1"
      = some (AddPushDate.lastDate [AddPushDate.cA, AddPushDate.cNoSha]) :=
  (C3_grouping_partition [AddPushDate.cA, AddPushDate.cNoSha] (by decide)).2
    [AddPushDate.cA, AddPushDate.cNoSha] (by decide) AddPushDate.cA
    (by decide) "s1" rfl

/-- Counterexample to C3 as stated: a commit that has committer email and
date but no sha key is placed into a group (it is not among the claim's
stated exceptions, which cover only missing email or timestamp), yet the
sha-to-push-date map is empty, so the commit is assigned no inferred push
timestamp. -/
theorem C3_grouping_partition_counterexample :
    AddPushDate.groupCommits [AddPushDate.cNoSha] = [[AddPushDate.cNoSha]] ∧
    AddPushDate.pushDateMap
        (AddPushDate.groupCommits [AddPushDate.cNoSha]) = [] := by
  exact ⟨by decide, by decide⟩

/-! ### Model of src/Analytics/analytics-revision.py

recalculate_pr_metrics groups the table by (owner, repo_name, pull_number)
and aggregates: revision_commit by count (number of rows of the group),
the revision totals by sum, the initial metrics by first, and then
recomputes the two change-line columns as addition + deletion. -/

namespace AnalyticsRevision

abbrev PRKey := String × String × Nat

/-- One row of the table fed to recalculate_pr_metrics, carrying all the
aggregated columns (the derived change-line columns included, so that the
output shape matches the input shape and re-application is meaningful). -/
structure MetricRow where
  owner : String
  repoName : String
  pullNumber : Nat
  revisionCommit : Int
  revisionTotalAdditions : Int
  revisionTotalDeletions : Int
  revisionFileChange : Int
  initialTotalAdditions : Int
  initialTotalDeletions : Int
  initialFileChange : Int
  revisionTotalChangeLines : Int
  initialChangeLines : Int
deriving DecidableEq

def keyOf (r : MetricRow) : PRKey := (r.owner, r.repoName, r.pullNumber)

/-- Distinct PR keys of the table, in order of first appearance. -/
def keys (df : List MetricRow) : List PRKey := (df.map keyOf).dedup

/-- Rows of the groupby group for key k. -/
def groupOf (df : List MetricRow) (k : PRKey) : List MetricRow :=
  df.filter (fun r => keyOf r == k)

/-- Aggregation by sum over a group. -/
def sumBy (f : MetricRow → Int) (g : List MetricRow) : Int := (g.map f).sum

/-- Aggregation by first over a group. -/
def firstBy (f : MetricRow → Int) (g : List MetricRow) : Int :=
  (g.head?.map f).getD 0

/-- Aggregated output row for one PR key: count for revision_commit, sums
for the revision totals, first for the initial metrics, and the two
change-line columns recomputed from the aggregated additions and
deletions. -/
def aggRow (df : List MetricRow) (k : PRKey) : MetricRow :=
  let g := groupOf df k
  let revAdd := sumBy (·.revisionTotalAdditions) g
  let revDel := sumBy (·.revisionTotalDeletions) g
  let initAdd := firstBy (·.initialTotalAdditions) g
  let initDel := firstBy (·.initialTotalDeletions) g
  { owner := k.1
    repoName := k.2.1
    pullNumber := k.2.2
    revisionCommit := (g.length : Int)
    revisionTotalAdditions := revAdd
    revisionTotalDeletions := revDel
    revisionFileChange := sumBy (·.revisionFileChange) g
    initialTotalAdditions := initAdd
    initialTotalDeletions := initDel
    initialFileChange := firstBy (·.initialFileChange) g
    revisionTotalChangeLines := revAdd + revDel
    initialChangeLines := initAdd + initDel }

/-- recalculate_pr_metrics: one aggregated row per distinct PR key. -/
def recalculate_pr_metrics (df : List MetricRow) : List MetricRow :=
  (keys df).map (aggRow df)

theorem keyOf_aggRow (df : List MetricRow) (k : PRKey) :
    keyOf (aggRow df k) = k := by
  obtain ⟨a, b, c⟩ := k
  rfl

theorem keys_recalculate (df : List MetricRow) :
    keys (recalculate_pr_metrics df) = keys df := by
  unfold keys recalculate_pr_metrics
  rw [List.map_map]
  have h1 : (keys df).map (keyOf ∘ aggRow df) = keys df := by
    have := List.map_congr_left (l := keys df)
      (f := keyOf ∘ aggRow df) (g := id) (fun k _ => keyOf_aggRow df k)
    simpa using this
  rw [h1]
  exact (List.nodup_dedup (df.map keyOf)).dedup

theorem filter_key_map (ks : List PRKey) (f : PRKey → MetricRow)
    (hf : ∀ k, keyOf (f k) = k) :
    ∀ k, ks.Nodup → k ∈ ks →
      (ks.map f).filter (fun r => keyOf r == k) = [f k] := by
  induction ks with
  | nil => intro k _ hk; cases hk
  | cons a t ih =>
    intro k hn hk
    have hnt : t.Nodup := (List.nodup_cons.mp hn).2
    have hat : a ∉ t := (List.nodup_cons.mp hn).1
    rcases List.mem_cons.mp hk with rfl | hkt
    · have hhead : (keyOf (f k) == k) = true := by simp [hf k]
      have htail : (t.map f).filter (fun r => keyOf r == k) = [] := by
        refine List.filter_eq_nil_iff.mpr ?_
        intro r hr
        obtain ⟨b, hb, rfl⟩ := List.mem_map.mp hr
        have : b ≠ k := fun h => hat (h ▸ hb)
        simp [hf b, this]
      simp [List.filter_cons, hhead, htail]
    · have hne : a ≠ k := fun h => hat (h ▸ hkt)
      have hhead : (keyOf (f a) == k) = false := by
        simp [hf a, hne]
      simp [List.filter_cons, hhead, ih k hnt hkt]

theorem groupOf_recalculate (df : List MetricRow) (k : PRKey)
    (hk : k ∈ keys df) :
    groupOf (recalculate_pr_metrics df) k = [aggRow df k] := by
  unfold groupOf recalculate_pr_metrics
  exact filter_key_map (keys df) (aggRow df) (keyOf_aggRow df) k
    (List.nodup_dedup (df.map keyOf)) hk

theorem aggRow_recalculate (df : List MetricRow) (k : PRKey)
    (hk : k ∈ keys df) :
    aggRow (recalculate_pr_metrics df) k
      = { aggRow df k with revisionCommit := 1 } := by
  obtain ⟨a, b, c⟩ := k
  rw [aggRow, groupOf_recalculate df (a, b, c) hk]
  simp only [aggRow, sumBy, firstBy, List.map_cons, List.map_nil,
    List.sum_cons, List.sum_nil, List.head?_cons, Option.map_some',
    Option.getD_some, List.length_cons, List.length_nil, add_zero,
    zero_add, Nat.cast_one]

theorem recalc_twice (df : List MetricRow) :
    recalculate_pr_metrics (recalculate_pr_metrics df)
      = (recalculate_pr_metrics df).map
          (fun r => { r with revisionCommit := 1 }) := by
  have h1 : recalculate_pr_metrics (recalculate_pr_metrics df)
      = (keys (recalculate_pr_metrics df)).map
          (aggRow (recalculate_pr_metrics df)) := rfl
  rw [h1, keys_recalculate,
    List.map_congr_left (fun k hk => aggRow_recalculate df k hk)]
  exact (List.map_map (fun r => { r with revisionCommit := 1 })
    (aggRow df) (keys df)).symm

/-- Example input row: PR (o, r, 1) with revision_commit 5. -/
def rX : MetricRow := ⟨"o", "r", 1, 5, 1, 2, 3, 10, 20, 30, 3, 30⟩

/-- Example input row: same PR key, revision_commit 7. -/
def rY : MetricRow := ⟨"o", "r", 1, 7, 4, 5, 6, 10, 20, 30, 9, 30⟩

end AnalyticsRevision

/-- C7 (amended): re-applying recalculate_pr_metrics to its own output
preserves the row count, the sum-aggregated and first-aggregated columns
and the derived change-line columns, but resets revision_commit of every
row to 1 (the per-key row count of an already-aggregated table); hence the
step is idempotent exactly on tables whose aggregated revision_commit
values are all 1, not on every input table. -/
theorem C7_aggregate_reapplication (df : List AnalyticsRevision.MetricRow) :
    AnalyticsRevision.recalculate_pr_metrics
        (AnalyticsRevision.recalculate_pr_metrics df)
      = (AnalyticsRevision.recalculate_pr_metrics df).map
          (fun r => { r with revisionCommit := 1 }) ∧
    (AnalyticsRevision.recalculate_pr_metrics
        (AnalyticsRevision.recalculate_pr_metrics df)).length
      = (AnalyticsRevision.recalculate_pr_metrics df).length := by
  refine ⟨AnalyticsRevision.recalc_twice df, ?_⟩
  rw [AnalyticsRevision.recalc_twice df, List.length_map]

/-- Counterexample to C7 as stated: a table with two commit rows for a
single PR aggregates to one row with revision_commit = 2, but re-applying
the aggregation to that output resets revision_commit to 1 (the count
aggregation counts rows, and the aggregated table has one row per key), so
the values change. -/
theorem C7_aggregate_reapplication_counterexample :
    AnalyticsRevision.recalculate_pr_metrics
        (AnalyticsRevision.recalculate_pr_metrics
          [AnalyticsRevision.rX, AnalyticsRevision.rY])
      ≠ AnalyticsRevision.recalculate_pr_metrics
          [AnalyticsRevision.rX, AnalyticsRevision.rY] := by
  decide

/-! ### Model of src/APR/main1_get_data.py

The harvesting script's per-page retry loop (MAX_RETRIES attempts against
a transport giving one response per attempt), the edge-processing loop
with its stargazer filter and 1000-item cap, and the pagination loop.  A
transport is a function from attempt index to response; the page stream is
a finite list (the search API ends its result stream), so the pagination
loop is structurally recursive on it. -/

namespace Main1

def MAX_RETRIES : Nat := 3

/-- Response of one request attempt: an HTTP response with a status code
and a GraphQL errors flag, or a raised transport exception. -/
inductive Attempt where
  | resp (status : Nat) (hasErrors : Bool)
  | timeoutExc
  | requestExc
deriving DecidableEq

/-- Outcome of the retry loop around one page request. -/
inductive Outcome where
  | success (hasErrors : Bool)
  | authAbort
  | serverFail
  | excFail
deriving DecidableEq

/-- Retry loop body: attempt is the 0-based loop index, fuel the number of
remaining iterations of range(MAX_RETRIES); returns the number of attempts
issued and the outcome.  5xx responses retry while attempt <
MAX_RETRIES - 1; a 401 aborts at once; other 4xx raise HTTPError and
retry; a 2xx parses the body; timeouts and request errors retry. -/
def retryGo (t : Nat → Attempt) : Nat → Nat → Nat × Outcome
  | _, 0 => (0, .excFail)
  | attempt, fuel + 1 =>
    match t attempt with
    | .resp s he =>
      if 500 ≤ s ∧ s < 600 then
        if attempt < MAX_RETRIES - 1 then
          let r := retryGo t (attempt + 1) fuel
          (r.1 + 1, r.2)
        else (1, .serverFail)
      else if s = 401 then (1, .authAbort)
      else if 400 ≤ s then
        if attempt < MAX_RETRIES - 1 then
          let r := retryGo t (attempt + 1) fuel
          (r.1 + 1, r.2)
        else (1, .excFail)
      else (1, .success he)
    | .timeoutExc =>
      if attempt < MAX_RETRIES - 1 then
        let r := retryGo t (attempt + 1) fuel
        (r.1 + 1, r.2)
      else (1, .excFail)
    | .requestExc =>
      if attempt < MAX_RETRIES - 1 then
        let r := retryGo t (attempt + 1) fuel
        (r.1 + 1, r.2)
      else (1, .excFail)

/-- Retry loop for one page request: for attempt in range(MAX_RETRIES). -/
def retryLoop (t : Nat → Attempt) : Nat × Outcome := retryGo t 0 MAX_RETRIES

theorem retryGo_le (t : Nat → Attempt) :
    ∀ fuel attempt, (retryGo t attempt fuel).1 ≤ fuel := by
  intro fuel
  induction fuel with
  | zero => intro attempt; simp [retryGo]
  | succ n ih =>
    intro attempt
    cases ht : t attempt with
    | resp s he =>
      by_cases h5 : 500 ≤ s ∧ s < 600
      · by_cases ha : attempt < MAX_RETRIES - 1
        · simp only [retryGo, ht, if_pos h5, if_pos ha]
          have := ih (attempt + 1)
          omega
        · simp [retryGo, ht, if_pos h5, if_neg ha]
      · by_cases h401 : s = 401
        · simp [retryGo, ht, if_neg h5, if_pos h401]
        · by_cases h4 : 400 ≤ s
          · by_cases ha : attempt < MAX_RETRIES - 1
            · simp only [retryGo, ht, if_neg h5, if_neg h401, if_pos h4,
                if_pos ha]
              have := ih (attempt + 1)
              omega
            · simp [retryGo, ht, if_neg h5, if_neg h401, if_pos h4, if_neg ha]
          · simp [retryGo, ht, if_neg h5, if_neg h401, if_neg h4]
    | timeoutExc =>
      by_cases ha : attempt < MAX_RETRIES - 1
      · simp only [retryGo, ht, if_pos ha]
        have := ih (attempt + 1)
        omega
      · simp [retryGo, ht, if_neg ha]
    | requestExc =>
      by_cases ha : attempt < MAX_RETRIES - 1
      · simp only [retryGo, ht, if_pos ha]
        have := ih (attempt + 1)
        omega
      · simp [retryGo, ht, if_neg ha]

/-- Transport failing with HTTP 500 on the first two attempts and
succeeding on the third. -/
def transport500twice : Nat → Attempt :=
  fun i => if i < 2 then .resp 500 false else .resp 200 false

/-- Transport failing with HTTP 401 on every attempt (only the first is
ever issued). -/
def transport401 : Nat → Attempt := fun _ => .resp 401 false

/-- Repository object of a search result node; every key may be absent. -/
structure Repo where
  ownerLogin : Option String
  name : Option String
  stargazerCount : Option Nat
deriving DecidableEq

/-- Pull-request node of one search result edge. -/
structure PRNode where
  repository : Option Repo
  number : Option Nat
  url : Option String
  additions : Option Nat
  deletions : Option Nat
  changedFiles : Option Nat
  totalCommits : Option Nat
deriving DecidableEq

/-- One edge of a search page; the node itself may be missing. -/
abbrev Edge := Option PRNode

/-- Validity check of the loop: node and "repository" in node and
"number" in node. -/
def nodeOk (e : Edge) : Bool :=
  match e with
  | some n => n.repository.isSome && n.number.isSome
  | none => false

/-- Star count read from an edge: repo_info.get("stargazerCount", 0). -/
def starsOfEdge (e : Edge) : Nat :=
  match e with
  | some n => (n.repository.map (fun r => r.stargazerCount.getD 0)).getD 0
  | none => 0

/-- Accumulated pr_data record (the columns the claims mention). -/
structure PRData where
  owner : String
  repoName : String
  url : String
  pullNumber : Nat
  stars : Nat
  totalCommits : Nat
deriving DecidableEq

/-- Dictionary built for one accepted edge. -/
def mkPRData (n : PRNode) (r : Repo) : PRData :=
  { owner := r.ownerLogin.getD "N/A"
    repoName := r.name.getD "N/A"
    url := n.url.getD "N/A"
    pullNumber := n.number.getD 0
    stars := r.stargazerCount.getD 0
    totalCommits := n.totalCommits.getD 0 }

/-- Edge-processing loop of one page: stop at the 1000-item cap, skip
invalid nodes, skip repositories with fewer than 10 stars, append
everything else. -/
def processEdges (acc : List PRData) : List Edge → List PRData
  | [] => acc
  | e :: es =>
    if 1000 ≤ acc.length then acc
    else
      match e with
      | some n =>
        match n.repository, n.number with
        | some r, some _ =>
          if r.stargazerCount.getD 0 < 10 then processEdges acc es
          else processEdges (acc ++ [mkPRData n r]) es
        | some _, none => processEdges acc es
        | none, _ => processEdges acc es
      | none => processEdges acc es

/-- One page of search results. -/
structure Page where
  issueCount : Nat
  edges : List Edge
  hasNextPage : Bool
deriving DecidableEq

/-- Happy-path pagination loop as the code runs it: the top-of-loop cap
check, the first-page issueCount == 0 deactivations (lines 250 and 255),
the empty-later-page deactivation (line 258), edge processing, and the
continue condition hasNextPage and count < 1000 (line 304).  Returns the
accumulated records and the number of pages consumed; recursion is
structural on the page stream. -/
def codeFetchGo (first : Bool) (acc : List PRData) :
    List Page → List PRData × Nat
  | [] => (acc, 0)
  | p :: ps =>
    if 1000 ≤ acc.length then (acc, 0)
    else
      let inactive1 := first && p.issueCount == 0
      let inactive2 := p.edges.isEmpty && p.issueCount == 0 && first
      let inactive3 := p.edges.isEmpty && !first && !p.hasNextPage
      let acc2 := processEdges acc p.edges
      if !(inactive1 || inactive2 || inactive3) && p.hasNextPage
          && acc2.length < 1000 then
        let r := codeFetchGo false acc2 ps
        (r.1, r.2 + 1)
      else (acc2, 1)

def codeFetch (pages : List Page) : List PRData × Nat := codeFetchGo true [] pages

/-- Pagination loop as the claim describes it: process a page, then stop
exactly when zero records were returned on the first page, no next page is
signaled, or the accumulated count has reached the 1000 cap. -/
def specFetchGo (first : Bool) (acc : List PRData) :
    List Page → List PRData × Nat
  | [] => (acc, 0)
  | p :: ps =>
    if 1000 ≤ acc.length then (acc, 0)
    else
      let acc2 := processEdges acc p.edges
      if (first && p.edges.isEmpty) || !p.hasNextPage || 1000 ≤ acc2.length
      then (acc2, 1)
      else
        let r := specFetchGo false acc2 ps
        (r.1, r.2 + 1)

def specFetch (pages : List Page) : List PRData × Nat := specFetchGo true [] pages

/-- Consistency of the first page of the stream: the API reports
issueCount 0 exactly when it returns no records on that page. -/
def FirstPageConsistent : List Page → Prop
  | [] => True
  | p :: _ => p.edges = [] ↔ p.issueCount = 0

theorem processEdges_le : ∀ (es : List Edge) (acc : List PRData),
    acc.length ≤ 1000 → (processEdges acc es).length ≤ 1000 := by
  intro es
  induction es with
  | nil => intro acc h; simpa [processEdges] using h
  | cons e es ih =>
    intro acc h
    by_cases hc : 1000 ≤ acc.length
    · simpa [processEdges, hc] using h
    · cases e with
      | none => simpa [processEdges, hc] using ih acc h
      | some n =>
        cases hrep : n.repository with
        | none => simpa [processEdges, hc, hrep] using ih acc h
        | some r =>
          cases hnum : n.number with
          | none => simpa [processEdges, hc, hrep, hnum] using ih acc h
          | some m =>
            by_cases hst : r.stargazerCount.getD 0 < 10
            · simpa [processEdges, hc, hrep, hnum, hst] using ih acc h
            · have hlen : (acc ++ [mkPRData n r]).length ≤ 1000 := by
                simp only [List.length_append, List.length_singleton]
                omega
              simpa [processEdges, hc, hrep, hnum, hst] using ih _ hlen

theorem codeFetchGo_le : ∀ (pages : List Page) (first : Bool)
    (acc : List PRData), acc.length ≤ 1000 →
      (codeFetchGo first acc pages).1.length ≤ 1000 := by
  intro pages
  induction pages with
  | nil => intro first acc h; simpa [codeFetchGo] using h
  | cons p ps ih =>
    intro first acc h
    simp only [codeFetchGo]
    split
    · exact h
    · split
      · exact ih false _ (processEdges_le p.edges acc h)
      · exact processEdges_le p.edges acc h

theorem fetchGo_nonfirst (ps : List Page) :
    ∀ acc, codeFetchGo false acc ps = specFetchGo false acc ps := by
  induction ps with
  | nil => intro acc; rfl
  | cons p ps ih =>
    intro acc
    by_cases hc : 1000 ≤ acc.length
    · simp [codeFetchGo, specFetchGo, hc]
    · by_cases hn : p.hasNextPage
      · by_cases hlen : (processEdges acc p.edges).length < 1000
        · simp [codeFetchGo, specFetchGo, hc, hn, hlen, ih]
          rw [if_neg (by omega)]
        · simp [codeFetchGo, specFetchGo, hc, hn, hlen]
          rw [if_pos (by omega)]
      · simp [codeFetchGo, specFetchGo, hc, hn]

theorem codeFetch_eq_specFetch (pages : List Page)
    (h : FirstPageConsistent pages) : codeFetch pages = specFetch pages := by
  cases pages with
  | nil => rfl
  | cons p ps =>
    have hcons : p.edges = [] ↔ p.issueCount = 0 := h
    unfold codeFetch specFetch
    by_cases hic : p.issueCount = 0
    · have he : p.edges = [] := hcons.mpr hic
      simp [codeFetchGo, specFetchGo, hic, he]
    · have he : p.edges ≠ [] := fun h0 => hic (hcons.mp h0)
      have he' : p.edges.isEmpty = false := by
        simpa [List.isEmpty_iff] using he
      by_cases hn : p.hasNextPage
      · by_cases hlen : (processEdges [] p.edges).length < 1000
        · simp [codeFetchGo, specFetchGo, hic, he', hn, hlen,
            fetchGo_nonfirst ps]
          rw [if_neg (by omega)]
        · simp [codeFetchGo, specFetchGo, hic, he', hn, hlen]
          rw [if_pos (by omega)]
      · simp [codeFetchGo, specFetchGo, hic, he', hn]

theorem processEdges_stars : ∀ (es : List Edge) (acc : List PRData)
    (r : PRData), r ∈ processEdges acc es → r ∈ acc ∨ 10 ≤ r.stars := by
  intro es
  induction es with
  | nil => intro acc r h; exact Or.inl (by simpa [processEdges] using h)
  | cons e es ih =>
    intro acc r h
    by_cases hc : 1000 ≤ acc.length
    · simp only [processEdges, if_pos hc] at h
      exact Or.inl h
    · cases e with
      | none =>
        simp only [processEdges, if_neg hc] at h
        exact ih acc r h
      | some n =>
        cases hrep : n.repository with
        | none =>
          simp only [processEdges, if_neg hc, hrep] at h
          exact ih acc r h
        | some rp =>
          cases hnum : n.number with
          | none =>
            simp only [processEdges, if_neg hc, hrep, hnum] at h
            exact ih acc r h
          | some m =>
            by_cases hst : rp.stargazerCount.getD 0 < 10
            · simp only [processEdges, if_neg hc, hrep, hnum, if_pos hst] at h
              exact ih acc r h
            · simp only [processEdges, if_neg hc, hrep, hnum, if_neg hst] at h
              rcases ih _ r h with hmem | hstars
              · rcases List.mem_append.mp hmem with hmem' | hmem'
                · exact Or.inl hmem'
                · right
                  have : r = mkPRData n rp := by simpa using hmem'
                  subst this
                  simpa [mkPRData] using Nat.le_of_not_lt hst
              · exact Or.inr hstars

theorem codeFetchGo_stars : ∀ (pages : List Page) (first : Bool)
    (acc : List PRData) (r : PRData),
      r ∈ (codeFetchGo first acc pages).1 → r ∈ acc ∨ 10 ≤ r.stars := by
  intro pages
  induction pages with
  | nil => intro first acc r h; exact Or.inl (by simpa [codeFetchGo] using h)
  | cons p ps ih =>
    intro first acc r h
    simp only [codeFetchGo] at h
    by_cases hc : 1000 ≤ acc.length
    · rw [if_pos hc] at h
      exact Or.inl h
    · rw [if_neg hc] at h
      split at h
      · rcases ih false (processEdges acc p.edges) r h with h2 | h2
        · exact processEdges_stars p.edges acc r h2
        · exact Or.inr h2
      · exact processEdges_stars p.edges acc r h

theorem codeFetch_stars (pages : List Page) (r : PRData)
    (h : r ∈ (codeFetch pages).1) : 10 ≤ r.stars := by
  rcases codeFetchGo_stars pages true [] r h with h0 | h1
  · cases h0
  · exact h1

theorem processEdges_discard (acc : List PRData) (e : Edge) (es : List Edge)
    (hc : acc.length < 1000) (hok : nodeOk e = true)
    (hst : starsOfEdge e < 10) :
    processEdges acc (e :: es) = processEdges acc es := by
  cases e with
  | none => cases hok
  | some n =>
    cases hrep : n.repository with
    | none => simp [nodeOk, hrep] at hok
    | some rp =>
      cases hnum : n.number with
      | none => simp [nodeOk, hnum] at hok
      | some m =>
        have hst' : rp.stargazerCount.getD 0 < 10 := by
          simpa [starsOfEdge, hrep] using hst
        have hc' : ¬ 1000 ≤ acc.length := by omega
        simp [processEdges, hc', hrep, hnum, hst']

/-- Example edge: a valid node of a 15-star repository. -/
def edgeGood : Edge :=
  some ⟨some ⟨some "alice", some "repo", some 15⟩, some 7, some "u",
    some 1, some 2, some 3, some 4⟩

/-- Example edge: a valid node of a 3-star repository. -/
def edgeLow : Edge :=
  some ⟨some ⟨some "bob", some "r2", some 3⟩, some 8, some "u2",
    some 1, some 2, some 3, some 4⟩

/-- Example single-page stream with two edges and no next page. -/
def pagesW : List Page := [⟨2, [edgeGood, edgeLow], false⟩]

end Main1

/-- C5: over any finite page stream whose first page reports issueCount 0
exactly when it carries no records, the pagination loop (structurally
recursive on the stream, hence terminating) accumulates at most 1000
records, and it behaves exactly like the loop that stops precisely when
zero records are returned on the first page, no next page is signaled, or
the accumulated count reaches the 1000 cap. -/
theorem C5_pagination_loop (pages : List Main1.Page)
    (hcons : Main1.FirstPageConsistent pages) :
    (Main1.codeFetch pages).1.length ≤ 1000 ∧
    Main1.codeFetch pages = Main1.specFetch pages :=
  ⟨Main1.codeFetchGo_le pages true [] (by simp),
    Main1.codeFetch_eq_specFetch pages hcons⟩

/-- Closed witness for C5 at a concrete single-page stream. -/
theorem C5_pagination_loop_witness :
    (Main1.codeFetch Main1.pagesW).1.length ≤ 1000 ∧
    Main1.codeFetch Main1.pagesW = Main1.specFetch Main1.pagesW :=
  C5_pagination_loop Main1.pagesW
    (by simp [Main1.FirstPageConsistent, Main1.pagesW, Main1.edgeGood,
      Main1.edgeLow])

/-- C10: every record accumulated by the harvesting loop comes from a
repository with at least 10 stars, and an edge whose repository has fewer
than 10 stars is dropped by the edge-processing loop without producing any
record (the loop's result is the same as if the edge were absent). -/
theorem C10_stars_filter :
    (∀ (pages : List Main1.Page) (r : Main1.PRData),
      r ∈ (Main1.codeFetch pages).1 → 10 ≤ r.stars) ∧
    (∀ (acc : List Main1.PRData) (e : Main1.Edge) (es : List Main1.Edge),
      acc.length < 1000 → Main1.nodeOk e = true → Main1.starsOfEdge e < 10 →
      Main1.processEdges acc (e :: es) = Main1.processEdges acc es) :=
  ⟨Main1.codeFetch_stars, Main1.processEdges_discard⟩

/-- Closed witness for C10: a 3-star edge is dropped from a concrete edge
list, and the surviving record of the 15-star repository passes the
bound. -/
theorem C10_stars_filter_witness :
    Main1.processEdges [] [Main1.edgeLow, Main1.edgeGood]
      = Main1.processEdges [] [Main1.edgeGood] ∧
    10 ≤ (Main1.mkPRData
      ⟨some ⟨some "alice", some "repo", some 15⟩, some 7, some "u",
        some 1, some 2, some 3, some 4⟩
      ⟨some "alice", some "repo", some 15⟩).stars := by
  constructor
  · exact C10_stars_filter.2 [] Main1.edgeLow [Main1.edgeGood]
      (by decide) (by decide) (by decide)
  · exact C10_stars_filter.1 Main1.pagesW _ (by decide)

/-- C4: the retry loop issues at most MAX_RETRIES = 3 attempts for any
transport; two 500s followed by a success yield the successful result
with exactly 3 attempts; a 401 on the first attempt aborts immediately
after exactly 1 attempt, with zero retries. -/
theorem C4_retry_policy :
    (∀ t : Nat → Main1.Attempt, (Main1.retryLoop t).1 ≤ Main1.MAX_RETRIES) ∧
    Main1.retryLoop Main1.transport500twice = (3, Main1.Outcome.success false) ∧
    Main1.retryLoop Main1.transport401 = (1, Main1.Outcome.authAbort) := by
  refine ⟨fun t => Main1.retryGo_le t Main1.MAX_RETRIES 0, ?_, ?_⟩
  · rfl
  · rfl


/-! ### Model of src/APR/main3_get_change_file_name_data.py

run_graphql_query retries one GraphQL call up to 3 times.  A transport is
a function from attempt index to response.  The model records the sequence
of sleep durations alongside the outcome: on a RATE_LIMITED error it
sleeps 60 * (attempt + 1) seconds and retries, raising after the third
rate-limited attempt; NOT_FOUND returns a data-less result; other errors
raise; timeouts and request errors sleep 10 * (attempt + 1) and retry,
raising on the last attempt. -/

namespace Main3

inductive GqlErrType where
  | rateLimited
  | notFound
  | otherErr
deriving DecidableEq

inductive GqlResp where
  | ok (errors : List GqlErrType)
  | timeoutE
  | reqErr
deriving DecidableEq

inductive GqlOutcome where
  | result (errors : List GqlErrType)
  | raised
deriving DecidableEq

/-- Body of for attempt in range(3); fuel counts remaining iterations. -/
def runGqlGo (t : Nat → GqlResp) : Nat → Nat → GqlOutcome × List Nat
  | 0, _ => (.raised, [])
  | fuel + 1, attempt =>
    match t attempt with
    | .ok errs =>
      if errs.isEmpty then (.result errs, [])
      else if errs.contains .rateLimited then
        if attempt < 2 then
          let r := runGqlGo t fuel (attempt + 1)
          (r.1, 60 * (attempt + 1) :: r.2)
        else (.raised, [60 * (attempt + 1)])
      else if errs.contains .notFound then (.result errs, [])
      else (.raised, [])
    | .timeoutE =>
      if attempt == 2 then (.raised, [])
      else
        let r := runGqlGo t fuel (attempt + 1)
        (r.1, 10 * (attempt + 1) :: r.2)
    | .reqErr =>
      if attempt == 2 then (.raised, [])
      else
        let r := runGqlGo t fuel (attempt + 1)
        (r.1, 10 * (attempt + 1) :: r.2)

def run_graphql_query (t : Nat → GqlResp) : GqlOutcome × List Nat :=
  runGqlGo t 3 0

/-- Transport rate-limited on every attempt. -/
def tRLall : Nat → GqlResp := fun _ => .ok [.rateLimited]

/-- Transport rate-limited on the first two attempts and clean on the
third. -/
def tRLtwice : Nat → GqlResp :=
  fun i => if i < 2 then .ok [.rateLimited] else .ok []

theorem contains_isEmpty_false {α : Type} [BEq α] {l : List α} {x : α}
    (h : l.contains x = true) : l.isEmpty = false := by
  cases l with
  | nil => simp [List.contains] at h
  | cons a t => rfl

end Main3

/-! ### Shared model of two Python string primitives

String.toNat? and String.trim do not reduce inside the kernel, so int()
and str.strip() are modelled directly on the character list of the
string: int() for the nonnegative decimal numerals the pipeline's CSV
files contain, strip() for the usual ASCII whitespace. -/

namespace Py

def isSpace (c : Char) : Bool :=
  c == ' ' || c == '\t' || c == '\n' || c == '\r'

/-- str.strip(): drop whitespace from both ends. -/
def strip (s : String) : String :=
  String.mk (((s.data.dropWhile isSpace).reverse.dropWhile isSpace).reverse)

def charDigit (c : Char) : Option Nat :=
  let n := c.toNat
  if 48 ≤ n ∧ n ≤ 57 then some (n - 48) else none

def parseNatGo : List Char → Option Nat → Option Nat
  | [], acc => acc
  | c :: cs, acc =>
    match charDigit c, acc with
    | some d, some a => parseNatGo cs (some (a * 10 + d))
    | some d, none => parseNatGo cs (some d)
    | none, _ => none

/-- int(s) for a nonnegative decimal numeral; none when s is empty or
holds a non-digit (the ValueError branch). -/
def parseNat (s : String) : Option Nat := parseNatGo s.data none

end Py

/-! ### Model of the __main__ row loop of
src/APR/main4_get_first_commit_revision_data.py

Each CSV row is paired with the response its (single) lookup would get.
Rows with missing or non-numeric fields are skipped before any lookup; a
RATE_LIMITED lookup sleeps 60 seconds and skips to the next row without
retrying; a failed lookup is skipped; a successful lookup appends exactly
one result row. -/

namespace Main4

inductive FetchRes where
  | rateLimited
  | failed
  | okData (bodyTextLength changedFiles additions deletions : Nat)
      (hasCommits : Bool)
deriving DecidableEq

structure CsvRow where
  owner : Option String
  repoName : Option String
  pullNumberStr : Option String
deriving DecidableEq

/-- Python truthiness of a CSV field inside all([...]): present and
nonempty. -/
def fieldOk (o : Option String) : Bool :=
  match o with
  | none => false
  | some s => !(s == "")

structure OutRow where
  owner : String
  repoName : String
  prNumber : Nat
  bodyTextLength : Nat
  changedFiles : Nat
  additions : Nat
  deletions : Nat
  hasCommits : Bool
deriving DecidableEq

/-- Row loop of __main__: returns the results_list and the sequence of
sleeps of 60 seconds taken on rate-limited lookups (the fixed 1.5-second
pacing sleeps are not modelled). -/
def rowLoop : List (CsvRow × FetchRes) → List OutRow × List Nat
  | [] => ([], [])
  | (row, res) :: rest =>
    if !(fieldOk row.owner && fieldOk row.repoName
        && fieldOk row.pullNumberStr) then rowLoop rest
    else
      match Py.parseNat (row.pullNumberStr.getD "") with
      | none => rowLoop rest
      | some prNum =>
        match res with
        | .rateLimited =>
          let r := rowLoop rest
          (r.1, 60 :: r.2)
        | .failed => rowLoop rest
        | .okData btl cf a d hc =>
          let r := rowLoop rest
          ({ owner := row.owner.getD ""
             repoName := row.repoName.getD ""
             prNumber := prNum
             bodyTextLength := btl
             changedFiles := cf
             additions := a
             deletions := d
             hasCommits := hc } :: r.1, r.2)

/-- Input entry that produces an output row: all fields present and
nonempty, numeric PR number, successful lookup. -/
def rowSuccess (p : CsvRow × FetchRes) : Bool :=
  (fieldOk p.1.owner && fieldOk p.1.repoName && fieldOk p.1.pullNumberStr)
    && (Py.parseNat (p.1.pullNumberStr.getD "")).isSome
    && (match p.2 with | .okData .. => true | _ => false)

/-- Example row with all fields present and numeric. -/
def goodRow : CsvRow := ⟨some "o", some "r", some "1"⟩

/-- Example row with an empty owner field. -/
def missingOwnerRow : CsvRow := ⟨some "", some "r", some "1"⟩

theorem rowLoop_length (l : List (CsvRow × FetchRes)) :
    (rowLoop l).1.length = l.countP rowSuccess := by
  induction l with
  | nil => rfl
  | cons p rest ih =>
    obtain ⟨row, res⟩ := p
    by_cases hf : (fieldOk row.owner && fieldOk row.repoName
        && fieldOk row.pullNumberStr) = true
    · cases hp : Py.parseNat (row.pullNumberStr.getD "") with
      | none =>
        have hs : rowSuccess (row, res) = false := by
          simp [rowSuccess, hf, hp]
        simp [rowLoop, hf, hp, List.countP_cons, hs, ih]
      | some n =>
        cases res with
        | rateLimited =>
          have hs : rowSuccess (row, .rateLimited) = false := by
            simp [rowSuccess]
          simp [rowLoop, hf, hp, List.countP_cons, hs, ih]
        | failed =>
          have hs : rowSuccess (row, .failed) = false := by
            simp [rowSuccess]
          simp [rowLoop, hf, hp, List.countP_cons, hs, ih]
        | okData btl cf a d hc =>
          have hs : rowSuccess (row, .okData btl cf a d hc) = true := by
            simp [rowSuccess, hf, hp]
          simp [rowLoop, hf, hp, List.countP_cons, hs, ih]
    · have hs : rowSuccess (row, res) = false := by
        simp only [rowSuccess]
        simp only [Bool.not_eq_true] at hf
        simp [hf]
      simp [rowLoop, hf, List.countP_cons, hs, ih]

end Main4

/-! ### Model of src/APR/module/add-pr-times.py

The enrichment loop reads owner, repo_name and pull_number from each CSV
row (with "" as default), strips them, and appends exactly one output row
per input row: sentinel ERROR_MISSING_INFO cells when a required field is
missing, sentinel ERROR_INVALID_PR_NUM cells when the PR number is not
numeric, and otherwise the fetched createdAt / mergedAt timestamps (none
when the lookup fails) with the computed time_to_merge. -/

namespace AddPrTimes

structure InRow where
  owner : String
  repoName : String
  pullNumberStr : String
deriving DecidableEq

/-- Value written into one of the three added columns. -/
inductive Cell where
  | val (t : Option Int)
  | errMissingInfo
  | errInvalidPrNum
deriving DecidableEq

structure OutRow where
  row : InRow
  createdAt : Cell
  mergedAt : Cell
  timeToMerge : Cell
deriving DecidableEq

/-- Timestamps the GraphQL lookup returns for (owner, repo, number):
createdAt and mergedAt as integer seconds, none when absent or when the
query fails. -/
abbrev ApiFun := String → String → Nat → Option Int × Option Int

/-- calculate_time_to_merge: none unless both timestamps are present. -/
def calculate_time_to_merge (c m : Option Int) : Option Int :=
  match c, m with
  | some cd, some md => some (md - cd)
  | _, _ => none

/-- Processing of one CSV row of the loop body. -/
def processRow (api : ApiFun) (row : InRow) : OutRow :=
  let owner := Py.strip row.owner
  let repo := Py.strip row.repoName
  let pns := Py.strip row.pullNumberStr
  if owner == "" || repo == "" || pns == "" then
    ⟨row, .errMissingInfo, .errMissingInfo, .errMissingInfo⟩
  else
    match Py.parseNat pns with
    | none => ⟨row, .errInvalidPrNum, .errInvalidPrNum, .errInvalidPrNum⟩
    | some n =>
      let fetched := api owner repo n
      ⟨row, .val fetched.1, .val fetched.2,
        .val (calculate_time_to_merge fetched.1 fetched.2)⟩

/-- Row loop of main: one output row per input row. -/
def main_loop (api : ApiFun) (rows : List InRow) : List OutRow :=
  rows.map (processRow api)

/-- Api stub whose every lookup fails. -/
def apiNone : ApiFun := fun _ _ _ => (none, none)

end AddPrTimes

/-- C6 (amended): in main3's run_graphql_query, a rate-limited attempt k
(0-based) causes a wait of 60 * (k + 1) seconds - not a fixed 60 - and a
retry, with a permanent failure only once three attempts were rate
limited; in main4's row loop, a rate-limited lookup causes a fixed
60-second wait after which the row is skipped for good, without any
retry. -/
theorem C6_rate_limit_handling :
    (∀ t : Nat → Main3.GqlResp,
      (∀ i, i < 3 → ∃ errs, t i = .ok errs ∧ errs.contains .rateLimited = true) →
      Main3.run_graphql_query t = (.raised, [60, 120, 180])) ∧
    (∀ t : Nat → Main3.GqlResp,
      (∀ i, i < 2 → ∃ errs, t i = .ok errs ∧ errs.contains .rateLimited = true) →
      t 2 = .ok [] →
      Main3.run_graphql_query t = (.result [], [60, 120])) ∧
    (∀ (row : Main4.CsvRow) (rest : List (Main4.CsvRow × Main4.FetchRes)),
      (Main4.fieldOk row.owner && Main4.fieldOk row.repoName
        && Main4.fieldOk row.pullNumberStr) = true →
      (Py.parseNat (row.pullNumberStr.getD "")).isSome = true →
      Main4.rowLoop ((row, .rateLimited) :: rest)
        = ((Main4.rowLoop rest).1, 60 :: (Main4.rowLoop rest).2)) := by
  refine ⟨?_, ?_, ?_⟩
  · intro t h
    obtain ⟨e0, ht0, hc0⟩ := h 0 (by omega)
    obtain ⟨e1, ht1, hc1⟩ := h 1 (by omega)
    obtain ⟨e2, ht2, hc2⟩ := h 2 (by omega)
    have he0 := Main3.contains_isEmpty_false hc0
    have he1 := Main3.contains_isEmpty_false hc1
    have he2 := Main3.contains_isEmpty_false hc2
    have hm0 : Main3.GqlErrType.rateLimited ∈ e0 := List.elem_iff.mp hc0
    have hm1 : Main3.GqlErrType.rateLimited ∈ e1 := List.elem_iff.mp hc1
    have hm2 : Main3.GqlErrType.rateLimited ∈ e2 := List.elem_iff.mp hc2
    simp [Main3.run_graphql_query, Main3.runGqlGo, ht0, ht1, ht2,
      he0, he1, he2, hm0, hm1, hm2]
  · intro t h h2
    obtain ⟨e0, ht0, hc0⟩ := h 0 (by omega)
    obtain ⟨e1, ht1, hc1⟩ := h 1 (by omega)
    have he0 := Main3.contains_isEmpty_false hc0
    have he1 := Main3.contains_isEmpty_false hc1
    have hm0 : Main3.GqlErrType.rateLimited ∈ e0 := List.elem_iff.mp hc0
    have hm1 : Main3.GqlErrType.rateLimited ∈ e1 := List.elem_iff.mp hc1
    simp [Main3.run_graphql_query, Main3.runGqlGo, ht0, ht1, h2,
      he0, he1, hm0, hm1]
  · intro row rest hf hp
    obtain ⟨n, hn⟩ := Option.isSome_iff_exists.mp hp
    simp [Main4.rowLoop, hf, hn]

/-- Closed witness for C6 at concrete transports and a concrete row: three
rate-limited attempts raise after waits of 60, 120 and 180 seconds; two
rate-limited attempts followed by a clean response succeed after waits of
60 and 120; a rate-limited row lookup in main4 sleeps 60 seconds and
produces nothing. -/
theorem C6_rate_limit_handling_witness :
    Main3.run_graphql_query Main3.tRLall
      = (.raised, [60, 120, 180]) ∧
    Main3.run_graphql_query Main3.tRLtwice
      = (.result [], [60, 120]) ∧
    Main4.rowLoop [(Main4.goodRow, .rateLimited)] = ([], [60]) := by
  refine ⟨?_, ?_, ?_⟩
  · exact C6_rate_limit_handling.1 Main3.tRLall
      (fun i _ => ⟨[.rateLimited], rfl, rfl⟩)
  · refine C6_rate_limit_handling.2.1 Main3.tRLtwice ?_ (by rfl)
    intro i hi
    refine ⟨[.rateLimited], ?_, rfl⟩
    simp [Main3.tRLtwice, hi]
  · have h := C6_rate_limit_handling.2.2 Main4.goodRow []
      (by decide) (by decide)
    simpa using h

/-- Counterexample to C6 as stated: the waits are not a fixed 60 seconds
(on an all-rate-limited transport, main3's helper sleeps 60, then 120,
then 180 seconds), and in main4 the rate-limited call is not retried: the
single lookup of the row is abandoned after one fixed 60-second sleep, the
row producing no output although the retry budget was never exhausted. -/
theorem C6_rate_limit_handling_counterexample :
    (Main3.run_graphql_query Main3.tRLall).2 = [60, 120, 180] ∧
    ¬ (∀ w ∈ (Main3.run_graphql_query Main3.tRLall).2, w = 60) ∧
    Main4.rowLoop [(Main4.goodRow, Main4.FetchRes.rateLimited)] = ([], [60]) ∧
    (Main4.rowLoop [(Main4.goodRow, Main4.FetchRes.rateLimited)]).1
      = (Main4.rowLoop []).1 := by
  refine ⟨by rfl, ?_, by rfl, ?_⟩
  · intro h
    have := h 120 (by rw [(by rfl :
      (Main3.run_graphql_query Main3.tRLall).2 = [60, 120, 180])]; simp)
    omega
  · rfl

/-- C8 (amended): add-pr-times emits exactly one output row per input CSV
row - sentinel ERROR_MISSING_INFO cells when a required field is missing
(and ERROR_INVALID_PR_NUM when the PR number is not numeric), empty cells
when the lookup itself fails - so its output row count equals its input
row count; main4's row loop instead emits one row per fully successful
input row only, skipping rows with missing fields, invalid numbers, or
failed or rate-limited lookups, so its output row count can be lower than
its input row count. -/
theorem C8_sentinel_rows :
    (∀ (api : AddPrTimes.ApiFun) (rows : List AddPrTimes.InRow),
      (AddPrTimes.main_loop api rows).length = rows.length) ∧
    (∀ (api : AddPrTimes.ApiFun) (row : AddPrTimes.InRow),
      (Py.strip row.owner = "" ∨ Py.strip row.repoName = ""
        ∨ Py.strip row.pullNumberStr = "") →
      AddPrTimes.processRow api row
        = ⟨row, .errMissingInfo, .errMissingInfo, .errMissingInfo⟩) ∧
    (∀ l : List (Main4.CsvRow × Main4.FetchRes),
      (Main4.rowLoop l).1.length = l.countP Main4.rowSuccess) := by
  refine ⟨?_, ?_, Main4.rowLoop_length⟩
  · intro api rows
    simp [AddPrTimes.main_loop]
  · intro api row h
    have hb : (Py.strip row.owner == "" || Py.strip row.repoName == ""
        || Py.strip row.pullNumberStr == "") = true := by
      rcases h with h | h | h <;> simp [h]
    simp [AddPrTimes.processRow, hb]

/-- Closed witness for C8: a row whose owner strips to empty gets one
output row of ERROR_MISSING_INFO sentinels. -/
theorem C8_sentinel_rows_witness :
    AddPrTimes.processRow AddPrTimes.apiNone ⟨" ", "r", "1"⟩
      = ⟨⟨" ", "r", "1"⟩, .errMissingInfo, .errMissingInfo,
          .errMissingInfo⟩ :=
  C8_sentinel_rows.2.1 AddPrTimes.apiNone ⟨" ", "r", "1"⟩
    (Or.inl (by decide))

/-- Counterexample to C8 as stated: in main4's row loop, a row whose
looked-up entity is missing (the lookup returns None) and a row whose
owner field is empty each produce NO output row at all - no sentinel row
is emitted - so the output row count (0) differs from the input row count
(1). -/
theorem C8_sentinel_rows_counterexample :
    (Main4.rowLoop [(Main4.goodRow, Main4.FetchRes.failed)]).1.length = 0 ∧
    [(Main4.goodRow, Main4.FetchRes.failed)].length = 1 ∧
    (Main4.rowLoop
      [(Main4.missingOwnerRow, Main4.FetchRes.okData 1 1 1 1 true)]).1.length
      = 0 := by
  exact ⟨rfl, rfl, rfl⟩
